import Mathlib

set_option maxHeartbeats 1000000

/-!
Verification of the RIFT fraud-detection engine (`src/Backend/src`).

Shallow embedding conventions:
* JS numbers are modelled as `ℚ` (amounts, timestamps in milliseconds since
  the epoch — JS `Date` subtraction yields exactly that number); the one
  place the code can produce a non-finite number (`detectFrequencyAnomalies`
  dividing by a zero time span) is modelled explicitly with `JSNum`.
* `Array.prototype.sort` with a numeric comparator is required by the
  ECMAScript standard to be stable; it is embedded as `List.insertionSort`
  with the corresponding total preorder (insertion sort is stable).
* The `TransactionGraph` (`src/Backend/src/graph/TransactionGraph.js`)
  appends each added transaction to the sender's outgoing list and to the
  receiver's incoming list, in insertion order.  A graph is therefore
  represented by its insertion-ordered transaction list `txs`; the outgoing
  list of `a` is `txs` filtered by `sender_id = a`, the incoming list is
  `txs` filtered by `receiver_id = a`, and `getAllAccounts` (a `Set` filled
  with the outgoing keys then the incoming keys) is the first-occurrence
  deduplication of senders followed by receivers.
-/

namespace RIFT

/-- A transaction record (`src/Backend/src/models/Transaction.js`). -/
structure Transaction where
  transaction_id : String
  sender_id : String
  receiver_id : String
  amount : ℚ
  timestamp : ℚ
  deriving DecidableEq

/-- `TransactionGraph.getOutgoingTransactions`: the sender-ordered list of a
transactions sent by `a` (appended in insertion order by `addTransaction`). -/
def outgoingTransactions (txs : List Transaction) (a : String) : List Transaction :=
  txs.filter (fun t => t.sender_id == a)

/-- `TransactionGraph.getIncomingTransactions`. -/
def incomingTransactions (txs : List Transaction) (a : String) : List Transaction :=
  txs.filter (fun t => t.receiver_id == a)

/-- Insert into a JS `Set`/`Map`-key list: keeps first-insertion order. -/
def insertUnique (l : List String) (x : String) : List String :=
  if x ∈ l then l else l ++ [x]

/-- `TransactionGraph.getAllAccounts`: a `Set` receives every
`outgoingEdges` key (senders, in first-appearance order) and then every
`incomingEdges` key (receivers, in first-appearance order). -/
def allAccounts (txs : List Transaction) : List String :=
  (txs.map (·.sender_id) ++ txs.map (·.receiver_id)).foldl insertUnique []

/-- Stable ascending sort of transactions by timestamp, the embedding of
`sort((a, b) => a.timestamp - b.timestamp)`. -/
def sortByTime (txs : List Transaction) : List Transaction :=
  List.insertionSort (fun a b => a.timestamp ≤ b.timestamp) txs

/-- JS `toFixed(1)` then `parseFloat`: round to one decimal place. -/
def roundTo1 (x : ℚ) : ℚ :=
  (round (10 * x) : ℤ) / 10

/-! ## Report formatting (C2) -/

/-- A suspicious-account entry as the formatter receives it
(`src/Backend/src/models/SuspiciousAccount.js`). -/
structure SuspiciousAccount where
  account_id : String
  suspicion_score : ℚ
  detected_patterns : List String
  ring_id : Option String
  deriving DecidableEq

/-- The ordering imposed by the comparator
`(a, b) => b.suspicion_score - a.suspicion_score` of `JSONFormatter.format`
(`src/Backend/src/formatter/JSONFormatter.js` lines 16-20): score
descending, no tiebreak. -/
def scoreDesc (a b : SuspiciousAccount) : Prop :=
  b.suspicion_score ≤ a.suspicion_score

instance : DecidableRel scoreDesc :=
  fun a b => inferInstanceAs (Decidable (b.suspicion_score ≤ a.suspicion_score))

instance : IsTotal SuspiciousAccount scoreDesc :=
  ⟨fun a b => le_total b.suspicion_score a.suspicion_score⟩

instance : IsTrans SuspiciousAccount scoreDesc :=
  ⟨fun _ _ _ h1 h2 => le_trans h2 h1⟩

/-- The account-ordering step of `JSONFormatter.format`: ECMAScript
requires `Array.prototype.sort` to be stable, so the sort is the stable
descending-by-score sort (embedded as an insertion sort, which is
stable). -/
def formatSortAccounts (l : List SuspiciousAccount) : List SuspiciousAccount :=
  List.insertionSort scoreDesc l

/-! ## Suspicion classifier (C4) -/

/-- `ScoreCalculatorEnhanced.isSuspicious`
(`src/Backend/src/models/Transaction.js` lines 671-678). -/
def isSuspicious (score : ℚ) (patterns : List String) : Bool :=
  if score ≥ 80 then true
  else if score ≥ 70 ∧ patterns.length ≥ 3 then true
  else if score ≥ 60 ∧ "cycle" ∈ patterns ∧ patterns.length ≥ 3 then true
  else if score ≥ 50 ∧ "cycle" ∈ patterns ∧ patterns.length ≥ 4 then true
  else false

/-! ## Threshold avoidance (C9) -/

/-- Per-account payload of `detectThresholdAvoidance`. -/
structure ThresholdPayload where
  average_amount : ℚ
  transaction_count : ℕ
  clustering_consistency : ℚ
  deriving DecidableEq

/-- Body of the per-account loop of
`GraphAnalyzerEnhanced.detectThresholdAvoidance`
(`src/Backend/src/analyzer/GraphAnalyzerEnhanced.js` lines 835-863);
`txs` is `[...incoming, ...outgoing]` for the account. -/
def detectThresholdAvoidance (txs : List Transaction) : Option ThresholdPayload :=
  if txs.length = 0 then none
  else
    let avg := (txs.map (·.amount)).sum / txs.length
    if 9000 ≤ avg ∧ avg ≤ 9999 then
      let nearThreshold := (txs.filter (fun t => 9000 ≤ t.amount ∧ t.amount ≤ 9999)).length
      some ⟨avg, txs.length, (nearThreshold : ℚ) / txs.length⟩
    else none

/-- The mean amount of an account's combined transaction list. -/
def meanAmount (txs : List Transaction) : ℚ :=
  (txs.map (·.amount)).sum / txs.length

/-! ## Shell accounts (C10) -/

/-- `GraphAnalyzerEnhanced.detectShellAccounts`
(`src/Backend/src/analyzer/GraphAnalyzerEnhanced.js` lines 745-760). -/
def detectShellAccounts (txs : List Transaction) : List String :=
  (allAccounts txs).filter (fun a =>
    decide ((incomingTransactions txs a).length + (outgoingTransactions txs a).length ≤ 3 ∧
      (incomingTransactions txs a).length + (outgoingTransactions txs a).length > 0 ∧
      (incomingTransactions txs a).length > 0 ∧ (outgoingTransactions txs a).length > 0))

/-- `ScoreCalculatorEnhanced._scoreShellAccount`
(`src/Backend/src/models/Transaction.js` lines 319-321). -/
def scoreShellAccount (a : String) (shells : List String) : ℚ :=
  if a ∈ shells then 12 else 0

/-! ## Ring risk score (C1) -/

/-- JS `Math.max(...scores)` on the (always nonempty) member-score list. -/
def jsMax (l : List ℚ) : ℚ :=
  match l with
  | [] => 0
  | x :: xs => xs.foldl max x

/-- `ScoreCalculatorEnhanced.calculateRingRiskScore`
(`src/Backend/src/models/Transaction.js` lines 680-687).  `memberScores` is
the JS `Map`; `get(acc) || 0` is `lookup` with default `0`.  Note the JS
expression is `(0.6 * maxScore) + (0.4 * avgScore) * sizeMultiplier`: the
multiplier binds only to the average term, and no clamp is applied. -/
def calculateRingRiskScore (member_accounts : List String)
    (memberScores : List (String × ℚ)) : ℚ :=
  let scores := member_accounts.map (fun acc => ((memberScores.lookup acc).getD 0))
  let maxScore := jsMax scores
  let avgScore := scores.sum / scores.length
  let sizeMultiplier : ℚ := 1 + (1 / 10) * min ((member_accounts.length : ℚ) - 2) 8
  (3 / 5) * maxScore + ((2 / 5) * avgScore) * sizeMultiplier

/-- Modelled from the spec: the ring risk score as claim C1 words it —
`(0.6·max + 0.4·avg) · size_multiplier`, clamped to `[0, 100]` and rounded
to one decimal.  Defined only to compare with the code's
`calculateRingRiskScore`. -/
def claimRingRiskScore (member_accounts : List String)
    (memberScores : List (String × ℚ)) : ℚ :=
  let scores := member_accounts.map (fun acc => ((memberScores.lookup acc).getD 0))
  let maxScore := jsMax scores
  let avgScore := scores.sum / scores.length
  let sizeMultiplier : ℚ := 1 + (1 / 10) * min ((member_accounts.length : ℚ) - 2) 8
  roundTo1 (min 100 (max 0 (((3 / 5) * maxScore + (2 / 5) * avgScore) * sizeMultiplier)))

/-! ## Wash trading (C8) -/

/-- The match condition checked inside the inner loop of
`GraphAnalyzerEnhanced.detectWashTrading`
(`src/Backend/src/analyzer/GraphAnalyzerEnhanced.js` lines 2099-2108):
amounts within 10% (relative to the outgoing amount), same counterparty,
timestamps within 48 hours. -/
def washMatch (o i : Transaction) : Bool :=
  !(|o.amount - i.amount| / o.amount > 1 / 10) &&
    (o.receiver_id == i.sender_id) &&
    (|o.timestamp - i.timestamp| / 3600000 ≤ 48)

/-- Inner loop of `detectWashTrading` over the incoming list: push each
match, breaking as soon as 10 pairs are recorded. -/
def washInner (o : Transaction) : List Transaction →
    List (Transaction × Transaction) → List (Transaction × Transaction)
  | [], acc => acc
  | i :: rest, acc =>
    if washMatch o i then
      if (acc ++ [(o, i)]).length ≥ 10 then acc ++ [(o, i)]
      else washInner o rest (acc ++ [(o, i)])
    else washInner o rest acc

/-- Outer loop of `detectWashTrading` over the outgoing list, breaking at
the top of each iteration once 10 pairs are recorded. -/
def washOuter (incoming : List Transaction) : List Transaction →
    List (Transaction × Transaction) → List (Transaction × Transaction)
  | [], acc => acc
  | o :: rest, acc =>
    if acc.length ≥ 10 then acc
    else washOuter incoming rest (washInner o incoming acc)

/-- Body of the per-account loop of
`GraphAnalyzerEnhanced.detectWashTrading`
(`src/Backend/src/analyzer/GraphAnalyzerEnhanced.js` lines 2082-2132):
skip accounts with fewer than 5 outgoing or fewer than 5 incoming
transactions, collect up to `MAX_WASH_TRADES = 10` matched pairs, fire when
at least 3 were recorded.  The payload keeps the count and the first 5
examples. -/
def detectWashTrading (outgoing incoming : List Transaction) :
    Option (ℕ × List (Transaction × Transaction)) :=
  if outgoing.length < 5 ∨ incoming.length < 5 then none
  else
    let washTrades := washOuter incoming outgoing []
    if washTrades.length ≥ 3 then some (washTrades.length, washTrades.take 5)
    else none

/-- Total number of matched (outgoing, incoming) pairs of an account,
counted over the full cartesian product as the two nested loops do. -/
def countWashPairs (outgoing incoming : List Transaction) : ℕ :=
  (outgoing.map (fun o => (incoming.filter (washMatch o)).length)).sum

/-! ## Burst activity (C7) -/

/-- The inter-arrival gaps of a chronologically ordered transaction list
(`timeDiffs` in `detectBurstActivity`). -/
def timeDiffsOf : List Transaction → List ℚ
  | [] => []
  | [_] => []
  | a :: b :: rest => (b.timestamp - a.timestamp) :: timeDiffsOf (b :: rest)

/-- The gap-scanning loop of `detectBurstActivity`
(`src/Backend/src/analyzer/GraphAnalyzerEnhanced.js` lines 354-366), with
state `(currentBurst, burstCount, maxBurstSize)`: a gap below the threshold
extends the current run and updates the maximum; a gap at or above it
closes the run, incrementing `burstCount` if the run had length ≥ 3. -/
def burstLoop (thr : ℚ) : List ℚ → ℕ → ℕ → ℕ → ℕ × ℕ
  | [], _, bc, mb => (bc, mb)
  | d :: rest, cb, bc, mb =>
    if d < thr then burstLoop thr rest (cb + 1) bc (max mb (cb + 1))
    else burstLoop thr rest 0 (if cb ≥ 3 then bc + 1 else bc) mb

/-- The burst threshold `avgTimeDiff * 0.2` of `detectBurstActivity`
computed from an account's combined, time-sorted transaction list. -/
def burstThr (incoming outgoing : List Transaction) : ℚ :=
  (timeDiffsOf (sortByTime (incoming ++ outgoing))).sum /
      (timeDiffsOf (sortByTime (incoming ++ outgoing))).length * (1 / 5)

/-- Body of the per-account loop of
`GraphAnalyzerEnhanced.detectBurstActivity`
(`src/Backend/src/analyzer/GraphAnalyzerEnhanced.js` lines 333-378):
`[...incoming, ...outgoing]` sorted by timestamp, accounts with fewer than
10 transactions skipped, then the gap scan; the signal fires when
`burstCount > 0 || maxBurstSize >= 5`, with payload
`(burstCount, maxBurstSize)`. -/
def detectBurstActivity (incoming outgoing : List Transaction) : Option (ℕ × ℕ) :=
  if (sortByTime (incoming ++ outgoing)).length < 10 then none
  else
    let res := burstLoop (burstThr incoming outgoing)
      (timeDiffsOf (sortByTime (incoming ++ outgoing))) 0 0 0
    if res.1 > 0 ∨ res.2 ≥ 5 then some res else none

/-- The maximal runs of consecutive below-threshold gaps, scanning with the
length of the run currently in progress: each emitted entry is a run length
paired with `true` when the run was closed by an above-threshold gap and
`false` when it reaches the end of the gap list. -/
def burstRunsAux (thr : ℚ) : List ℚ → ℕ → List (ℕ × Bool)
  | [], cur => if cur > 0 then [(cur, false)] else []
  | d :: rest, cur =>
    if d < thr then burstRunsAux thr rest (cur + 1)
    else if cur > 0 then (cur, true) :: burstRunsAux thr rest 0
    else burstRunsAux thr rest 0

/-- The maximal below-threshold runs of an account's gap sequence. -/
def burstRuns (incoming outgoing : List Transaction) : List (ℕ × Bool) :=
  burstRunsAux (burstThr incoming outgoing)
    (timeDiffsOf (sortByTime (incoming ++ outgoing))) 0

/-- The largest run length in a run list. -/
def maxRunLen (l : List (ℕ × Bool)) : ℕ :=
  (l.map Prod.fst).foldr max 0

/-! ## Numerical edge cases (C6) -/

/-- `GraphAnalyzerEnhanced._calculateVariance`
(`src/Backend/src/analyzer/GraphAnalyzerEnhanced.js` lines 2006-2010). -/
def calculateVariance (values : List ℚ) (mean : ℚ) : ℚ :=
  if values.length = 0 then 0
  else (values.map (fun v => (v - mean) ^ 2)).sum / values.length

/-- Stable ascending sort of rationals (`sort((a, b) => a - b)`). -/
def sortRat (l : List ℚ) : List ℚ :=
  List.insertionSort (fun a b => a ≤ b) l

/-- Consecutive differences of a rational list. -/
def ratDiffs : List ℚ → List ℚ
  | [] => []
  | [_] => []
  | a :: b :: rest => (b - a) :: ratDiffs (b :: rest)

/-- `GraphAnalyzerEnhanced._calculateTemporalClusteringCoefficient`
(`src/Backend/src/analyzer/GraphAnalyzerEnhanced.js` lines 2521-2542):
fewer than two timestamps yield 0; a zero mean interval yields 1; otherwise
`max(0, min(1, 1 - stddev/mean))` (the square root forces the result into
`ℝ`). -/
noncomputable def calculateTemporalClusteringCoefficient (timestamps : List ℚ) : ℝ :=
  if timestamps.length < 2 then 0
  else
    let intervals := ratDiffs (sortRat timestamps)
    if intervals.length = 0 then 0
    else
      let avgInterval := intervals.sum / intervals.length
      if avgInterval = 0 then 1
      else
        max 0 (min 1 (1 -
          Real.sqrt ((calculateVariance intervals avgInterval : ℚ) : ℝ) /
            ((avgInterval : ℚ) : ℝ)))

/-- The amount-consistency computation of
`GraphAnalyzerEnhanced._analyzeCommunityStructure`
(`src/Backend/src/analyzer/GraphAnalyzerEnhanced.js` lines 2447-2450):
`1 - min(var/mean, 1)` when the mean internal amount is positive, else 0. -/
def communityAmountConsistency (amounts : List ℚ) : ℚ :=
  let avgAmount := if amounts.length > 0 then amounts.sum / amounts.length else 0
  if avgAmount > 0 then 1 - min (calculateVariance amounts avgAmount / avgAmount) 1
  else 0

/-- A JS number that may be positive infinity (produced by dividing a
positive number by zero). -/
inductive JSNum where
  | fin (q : ℚ)
  | posInf
  deriving DecidableEq

/-- Finiteness of a JS number. -/
def JSNum.isFinite : JSNum → Bool
  | fin _ => true
  | posInf => false

/-- JS `>` of a possibly-infinite number against a rational bound. -/
def JSNum.gtQ : JSNum → ℚ → Bool
  | fin q, c => q > c
  | posInf, _ => true

/-- Body of the per-account loop of
`GraphAnalyzerEnhanced.detectFrequencyAnomalies`
(`src/Backend/src/analyzer/GraphAnalyzerEnhanced.js` lines 483-511):
`[...incoming, ...outgoing]` sorted by time, accounts with fewer than 20
transactions skipped; `days` is the first-to-last span in days and
`txsPerDay = txs.length / days` — in JS `+Infinity` when the span is zero,
since the numerator is at least 20.  Fires when the rate exceeds 20,
keeping the rate in the payload. -/
def detectFrequencyAnomalies (incoming outgoing : List Transaction) :
    Option (JSNum × ℕ) :=
  if (sortByTime (incoming ++ outgoing)).length < 20 then none
  else
    let txs := sortByTime (incoming ++ outgoing)
    let timeSpan := ((txs.getLast?.map (·.timestamp)).getD 0) -
      ((txs.head?.map (·.timestamp)).getD 0)
    let days := timeSpan / 86400000
    let txsPerDay : JSNum :=
      if days = 0 then JSNum.posInf else JSNum.fin ((txs.length : ℚ) / days)
    if txsPerDay.gtQ 20 then some (txsPerDay, txs.length) else none

/-- Twenty simultaneous transactions on one account. -/
def freq20Txs : List Transaction :=
  List.replicate 20 ⟨"t", "A", "B", 1, 0⟩

/-- An account timeline whose only short-gap run (three 1 ms gaps) sits in
the interior, closed by a long gap. -/
def burstWitnessTxs : List Transaction :=
  [⟨"t1", "A", "B", 1, 0⟩, ⟨"t2", "A", "B", 1, 1⟩, ⟨"t3", "A", "B", 1, 2⟩,
   ⟨"t4", "A", "B", 1, 3⟩, ⟨"t5", "A", "B", 1, 700000⟩,
   ⟨"t6", "A", "B", 1, 1400000⟩, ⟨"t7", "A", "B", 1, 2100000⟩,
   ⟨"t8", "A", "B", 1, 2800000⟩, ⟨"t9", "A", "B", 1, 3500000⟩,
   ⟨"t10", "A", "B", 1, 4200000⟩]

/-- An account timeline whose only short-gap run (three 1 ms gaps) extends
to the end of the timeline. -/
def burstCounterTxs : List Transaction :=
  [⟨"u1", "A", "B", 1, 0⟩, ⟨"u2", "A", "B", 1, 700000⟩,
   ⟨"u3", "A", "B", 1, 1400000⟩, ⟨"u4", "A", "B", 1, 2100000⟩,
   ⟨"u5", "A", "B", 1, 2800000⟩, ⟨"u6", "A", "B", 1, 3500000⟩,
   ⟨"u7", "A", "B", 1, 4200000⟩, ⟨"u8", "A", "B", 1, 4200001⟩,
   ⟨"u9", "A", "B", 1, 4200002⟩, ⟨"u10", "A", "B", 1, 4200003⟩]

/-! ## Cycle detection (C3, C5)

`GraphAnalyzerEnhanced.detectCyclesEfficient`
(`src/Backend/src/analyzer/GraphAnalyzerEnhanced.js` lines 578-656).

Embedding notes, traced from the JS:
* `recursionStack` always holds exactly the members of `path` (both are
  pushed and popped together, and a node is pushed at most once because the
  DFS only descends to unvisited neighbours), so the stack-membership test
  is embedded as membership in `path`.
* The "normalization" at lines 616-620 computes
  `cycleAccounts.indexOf(Math.min(...cycleAccounts))`.  `cycleAccounts`
  holds account-id *strings*; `Math.min` coerces them with `ToNumber`, so it
  returns `NaN` for non-numeric ids and a *number* for numeric ones.
  `Array.prototype.indexOf` compares with strict equality, and a number (or
  `NaN`) is never strictly equal to a string, so `minIdx` is always `-1`.
  `slice(-1)` then yields the last element and `slice(0, -1)` the rest:
  the "normalized" form is the cycle rotated to put its *last* element
  first, not the rotation starting at the smallest id. -/

/-- One recorded cycle: the account path and its length. -/
structure CycleRec where
  accounts : List String
  length : ℕ
  deriving DecidableEq

/-- The JS `minIdx = -1` rotation (see the section comment): last element
first. -/
def jsNormalizeCycle (l : List String) : List String :=
  match l.getLast? with
  | none => []
  | some x => x :: l.dropLast

/-- The dedup key `normalizedCycle.join(',')`. -/
def cycleKey (l : List String) : String :=
  String.intercalate "," (jsNormalizeCycle l)

/-- The `isDuplicate` scan over the cycles recorded so far. -/
def isDuplicateCycle (cycles : List CycleRec) (key : String) : Bool :=
  cycles.any (fun c => cycleKey c.accounts == key)

/-- Recording one back edge to `neighbor` found while the DFS path is
`path`: keep the cycle if its length is in `[3, 5]` and its key is new. -/
def recordCycle (path : List String) (neighbor : String)
    (cycles : List CycleRec) : List CycleRec :=
  let cycleStart := List.indexOf neighbor path
  let cycleLength := path.length - cycleStart
  if 3 ≤ cycleLength ∧ cycleLength ≤ 5 then
    if isDuplicateCycle cycles (cycleKey (path.drop cycleStart)) then cycles
    else cycles ++ [⟨path.drop cycleStart, cycleLength⟩]
  else cycles

/-- DFS state shared across calls: the recorded cycles and the per-start
`visited` set (which, unlike the path, is never popped). -/
structure DfsState where
  cycles : List CycleRec
  visited : List String
  deriving DecidableEq

mutual

/-- The recursive `dfs(node, depth)` of `detectCyclesEfficient`: guard,
mark visited, push onto the path, and walk the outgoing edges. -/
def dfsVisit (txs : List Transaction) (maxCycles : ℕ) (path : List String)
    (node : String) (depth : ℕ) (st : DfsState) : DfsState :=
  if depth > 5 ∨ st.cycles.length ≥ maxCycles then st
  else
    dfsEdges txs maxCycles (path ++ [node]) (outgoingTransactions txs node)
      node depth ⟨st.cycles, insertUnique st.visited node⟩
termination_by (5 - depth, 1, 0)

/-- The edge loop of `dfs`: stop at the cycle cap; a neighbour on the
current path records a cycle; an unvisited neighbour within the depth
bound is explored recursively. -/
def dfsEdges (txs : List Transaction) (maxCycles : ℕ) (path : List String)
    (edges : List Transaction) (node : String) (depth : ℕ)
    (st : DfsState) : DfsState :=
  match edges with
  | [] => st
  | tx :: rest =>
    if st.cycles.length ≥ maxCycles then st
    else if tx.receiver_id ∈ path then
      dfsEdges txs maxCycles path rest node depth
        ⟨recordCycle path tx.receiver_id st.cycles, st.visited⟩
    else if h : tx.receiver_id ∉ st.visited ∧ depth < 4 then
      dfsEdges txs maxCycles path rest node depth
        (dfsVisit txs maxCycles path tx.receiver_id (depth + 1) st)
    else dfsEdges txs maxCycles path rest node depth st
termination_by (5 - depth, 0, edges.length)

end

/-- One iteration of the start-account loop of `detectCyclesEfficient`:
`break` once the cap is reached, skip accounts in `globalVisited`,
otherwise run a DFS with a fresh per-start `visited` set and add the start
to `globalVisited`. -/
def detectCyclesStep (txs : List Transaction) (maxCycles : ℕ)
    (acc : List CycleRec × List String) (a : String) :
    List CycleRec × List String :=
  if acc.1.length ≥ maxCycles then acc
  else if a ∈ acc.2 then acc
  else ((dfsVisit txs maxCycles [] a 0 ⟨acc.1, []⟩).cycles, acc.2 ++ [a])

/-- `GraphAnalyzerEnhanced.detectCyclesEfficient(maxCycles)`. -/
def detectCyclesEfficient (txs : List Transaction) (maxCycles : ℕ) :
    List CycleRec :=
  ((allAccounts txs).foldl (detectCyclesStep txs maxCycles) ([], [])).1

/-- The cycle list produced by a pipeline run:
`detectAllPatterns` (line 47) calls `this.detectCyclesEfficient()` with no
argument, so the parameter default `maxCycles = 100` applies — the
`maxCycles` option configured on `FraudDetectionSystemOptimized`
(`src/unnamed/part_002` line 23, default 1000) is never passed down. -/
def detectAllPatternsCycles (txs : List Transaction) : List CycleRec :=
  detectCyclesEfficient txs 100

/-- A directed edge of the transaction graph. -/
def hasEdge (txs : List Transaction) (a b : String) : Prop :=
  ∃ t ∈ txs, t.sender_id = a ∧ t.receiver_id = b

/-- A well-formed reported cycle: pairwise-distinct accounts, consistent
length in `[3, 5]`, consecutive accounts joined by edges, and a closing
edge from the last account back to the first — a simple directed cycle. -/
def GoodCycle (txs : List Transaction) (c : CycleRec) : Prop :=
  c.accounts.Nodup ∧ c.length = c.accounts.length ∧
  3 ≤ c.accounts.length ∧ c.accounts.length ≤ 5 ∧
  c.accounts.Chain' (hasEdge txs) ∧
  (∀ x y, c.accounts.getLast? = some x → c.accounts.head? = some y →
    hasEdge txs x y)

/-- The claim's normalization: rotate a cycle so that its lexicographically
smallest account id comes first (modelled from the spec's words, for
comparison with the code's `jsNormalizeCycle`). -/
def specNormalizeCycle (l : List String) : List String :=
  match l.foldr (fun x m => match m with
    | none => some x
    | some y => if x ≤ y then some x else some y) none with
  | none => []
  | some m => l.drop (List.indexOf m l) ++ l.take (List.indexOf m l)

end RIFT

namespace RIFT

/-! ## Theorems for C4, C9, C10, C1 -/

/-- **C4.** An account is classified suspicious iff its score is ≥ 80, or
≥ 70 with at least 3 fired patterns, or ≥ 60 with the cycle pattern and at
least 3 fired patterns, or ≥ 50 with the cycle pattern and at least 4 fired
patterns; otherwise it is not suspicious. -/
theorem isSuspicious_iff (score : ℚ) (patterns : List String) :
    isSuspicious score patterns = true ↔
      (80 ≤ score ∨
       (70 ≤ score ∧ 3 ≤ patterns.length) ∨
       (60 ≤ score ∧ "cycle" ∈ patterns ∧ 3 ≤ patterns.length) ∨
       (50 ≤ score ∧ "cycle" ∈ patterns ∧ 4 ≤ patterns.length)) := by
  unfold isSuspicious
  split_ifs with h1 h2 h3 h4 <;> simp_all

/-- **C9.** For an account with at least one transaction the
threshold-avoidance detector fires when the mean amount is exactly 9000 or
exactly 9999 and does not fire when the mean is 8999 or 10000. -/
theorem thresholdAvoidance_boundary (txs : List Transaction)
    (h : 1 ≤ txs.length) :
    ((meanAmount txs = 9000 ∨ meanAmount txs = 9999) →
        (detectThresholdAvoidance txs).isSome = true) ∧
    ((meanAmount txs = 8999 ∨ meanAmount txs = 10000) →
        (detectThresholdAvoidance txs).isSome = false) := by
  have hne : ¬ txs.length = 0 := by omega
  constructor
  · intro hm
    unfold detectThresholdAvoidance
    rw [if_neg hne]
    have havg : 9000 ≤ meanAmount txs ∧ meanAmount txs ≤ 9999 := by
      rcases hm with hm | hm <;> rw [hm] <;> norm_num
    unfold meanAmount at havg
    rw [if_pos havg]
    rfl
  · intro hm
    unfold detectThresholdAvoidance
    rw [if_neg hne]
    have havg : ¬ (9000 ≤ meanAmount txs ∧ meanAmount txs ≤ 9999) := by
      rcases hm with hm | hm <;> rw [hm] <;> norm_num
    unfold meanAmount at havg
    rw [if_neg havg]
    rfl

/-- Membership is preserved by folding `insertUnique`. -/
theorem mem_foldl_insertUnique (l : List String) (acc : List String) (x : String)
    (h : x ∈ acc ∨ x ∈ l) : x ∈ l.foldl insertUnique acc := by
  induction l generalizing acc with
  | nil => simpa using h
  | cons y ys ih =>
    simp only [List.foldl_cons]
    apply ih
    rcases h with h | h
    · by_cases hy : y ∈ acc <;> simp [insertUnique, hy, h]
    · rcases List.mem_cons.mp h with rfl | h
      · by_cases hy : x ∈ acc <;> simp [insertUnique, hy]
      · simp [h]

/-- The sender of any transaction in the graph is among `getAllAccounts`. -/
theorem sender_mem_allAccounts (txs : List Transaction) (t : Transaction)
    (ht : t ∈ txs) : t.sender_id ∈ allAccounts txs := by
  unfold allAccounts
  exact mem_foldl_insertUnique _ _ _ (Or.inr (by
    exact List.mem_append.mpr (Or.inl (List.mem_map_of_mem _ ht))))

/-- **C10.** An account whose entire activity is a single self-transaction
has that transaction in both its outgoing and incoming lists (total degree
2, with at least one of each), is reported by the shell-account detector,
and receives the 12-point shell-account score contribution. -/
theorem shellAccount_selfTransaction (txs : List Transaction) (a : String)
    (t : Transaction)
    (hfilter : txs.filter (fun x => x.sender_id == a || x.receiver_id == a) = [t])
    (hs : t.sender_id = a) (hr : t.receiver_id = a) :
    outgoingTransactions txs a = [t] ∧ incomingTransactions txs a = [t] ∧
      a ∈ detectShellAccounts txs ∧
      scoreShellAccount a (detectShellAccounts txs) = 12 := by
  have hout : outgoingTransactions txs a = [t] := by
    unfold outgoingTransactions
    have hcongr : ∀ x ∈ txs, (x.sender_id == a) =
        ((x.sender_id == a) && (x.sender_id == a || x.receiver_id == a)) := by
      intro x _
      cases h : (x.sender_id == a) <;> simp [h]
    rw [List.filter_congr hcongr, ← List.filter_filter, hfilter]
    simp [hs]
  have hin : incomingTransactions txs a = [t] := by
    unfold incomingTransactions
    have hcongr : ∀ x ∈ txs, (x.receiver_id == a) =
        ((x.receiver_id == a) && (x.sender_id == a || x.receiver_id == a)) := by
      intro x _
      cases h : (x.receiver_id == a) <;> simp [h]
    rw [List.filter_congr hcongr, ← List.filter_filter, hfilter]
    simp [hr]
  have htmem : t ∈ txs := by
    have : t ∈ txs.filter (fun x => x.sender_id == a || x.receiver_id == a) := by
      rw [hfilter]; exact List.mem_singleton_self t
    exact List.mem_of_mem_filter this
  have hall : a ∈ allAccounts txs := hs ▸ sender_mem_allAccounts txs t htmem
  have hshell : a ∈ detectShellAccounts txs := by
    unfold detectShellAccounts
    rw [List.mem_filter]
    exact ⟨hall, by simp [hin, hout]⟩
  exact ⟨hout, hin, hshell, by simp [scoreShellAccount, hshell]⟩

/-- Witness for C10 at a concrete input: the one-transaction graph
`A → A` of amount 5. -/
theorem shellAccount_selfTransaction_witness :
    outgoingTransactions [⟨"tx1", "A", "A", 5, 0⟩] "A" = [⟨"tx1", "A", "A", 5, 0⟩] ∧
    incomingTransactions [⟨"tx1", "A", "A", 5, 0⟩] "A" = [⟨"tx1", "A", "A", 5, 0⟩] ∧
    "A" ∈ detectShellAccounts [⟨"tx1", "A", "A", 5, 0⟩] ∧
    scoreShellAccount "A" (detectShellAccounts [⟨"tx1", "A", "A", 5, 0⟩]) = 12 :=
  shellAccount_selfTransaction [⟨"tx1", "A", "A", 5, 0⟩] "A" ⟨"tx1", "A", "A", 5, 0⟩
    (by decide) (by decide) (by decide)

/-- **C1.** Evaluation of the ring risk score at a 3-member ring whose
members all have suspicion score 100.  The code
(`calculateRingRiskScore`, with the one-decimal rounding the formatter
applies) produces 104.0, because the size multiplier binds only to the
average term and no clamp is applied; the claimed formula
`min(100, (0.6·max + 0.4·avg)·multiplier)` gives 100.0. -/
theorem ringRiskScore_precedence_eval :
    roundTo1 (calculateRingRiskScore ["A", "B", "C"]
        [("A", 100), ("B", 100), ("C", 100)]) = 104 ∧
    claimRingRiskScore ["A", "B", "C"] [("A", 100), ("B", 100), ("C", 100)] = 100 := by
  constructor <;>
  · simp [calculateRingRiskScore, claimRingRiskScore, roundTo1, jsMax, List.lookup]
    norm_num [round_eq, min_def, max_def]

/-- Witness for C9 at concrete inputs: a single transaction of amount 9000
fires the detector, and a single transaction of amount 8999 does not. -/
theorem thresholdAvoidance_boundary_witness :
    (1 ≤ ([⟨"t1", "A", "B", 9000, 0⟩] : List Transaction).length) ∧
    (detectThresholdAvoidance [⟨"t1", "A", "B", 9000, 0⟩]).isSome = true ∧
    (detectThresholdAvoidance [⟨"t2", "A", "B", 8999, 0⟩]).isSome = false := by
  refine ⟨by decide, ?_, ?_⟩
  · exact (thresholdAvoidance_boundary [⟨"t1", "A", "B", 9000, 0⟩] (by decide)).1
      (Or.inl (by norm_num [meanAmount]))
  · exact (thresholdAvoidance_boundary [⟨"t2", "A", "B", 8999, 0⟩] (by decide)).2
      (Or.inl (by norm_num [meanAmount]))

/-! ## Theorems for C8 -/

/-- The inner wash-trading loop records matches up to the cap of 10. -/
theorem washInner_length (o : Transaction) (l : List Transaction)
    (acc : List (Transaction × Transaction)) (h : acc.length < 10) :
    (washInner o l acc).length = min 10 (acc.length + (l.filter (washMatch o)).length) := by
  induction l generalizing acc with
  | nil => simp [washInner]; omega
  | cons i rest ih =>
    unfold washInner
    by_cases hm : washMatch o i = true
    · rw [if_pos hm]
      have hx : (acc ++ [(o, i)]).length = acc.length + 1 := by simp
      have hy : ((i :: rest).filter (washMatch o)).length
          = (rest.filter (washMatch o)).length + 1 := by
        simp [List.filter_cons, hm]
      by_cases hcap : (acc ++ [(o, i)]).length ≥ 10
      · rw [if_pos hcap, hx, hy]
        rw [hx] at hcap
        omega
      · rw [if_neg hcap]
        rw [hx] at hcap
        rw [ih _ (by omega), hx, hy]
        omega
    · rw [if_neg hm, ih _ h]
      simp [List.filter_cons, hm]

/-- The outer wash-trading loop records matches up to the cap of 10. -/
theorem washOuter_length (incoming : List Transaction) (l : List Transaction)
    (acc : List (Transaction × Transaction)) (h : acc.length ≤ 10) :
    (washOuter incoming l acc).length = min 10 (acc.length + countWashPairs l incoming) := by
  induction l generalizing acc with
  | nil => simp [washOuter, countWashPairs]; omega
  | cons o rest ih =>
    unfold washOuter
    by_cases hcap : acc.length ≥ 10
    · rw [if_pos hcap]
      simp [countWashPairs]
      omega
    · rw [if_neg hcap]
      rw [ih _ (by rw [washInner_length o incoming acc (by omega)]; omega)]
      rw [washInner_length o incoming acc (by omega)]
      simp [countWashPairs]
      omega

/-- **C8 (amended).** The wash-trading detector fires exactly when the
account has at least 5 outgoing and at least 5 incoming transactions and at
least 3 matched (outgoing, incoming) pairs exist; accounts below either
count minimum never fire, whatever their matched pairs. -/
theorem washTrading_fires_iff (outgoing incoming : List Transaction) :
    (detectWashTrading outgoing incoming).isSome = true ↔
      (5 ≤ outgoing.length ∧ 5 ≤ incoming.length ∧
        3 ≤ countWashPairs outgoing incoming) := by
  have hlen := washOuter_length incoming outgoing [] (by simp)
  simp only [List.length_nil, Nat.zero_add] at hlen
  unfold detectWashTrading
  split_ifs with h1 h2 <;> simp_all <;> omega

/-- Counterexample to C8 as stated: an account with 3 outgoing and 3
incoming transactions has 9 matched pairs (every pair matches: equal
amounts, same counterparty, simultaneous), yet the detector does not fire
because the account has fewer than 5 outgoing and 5 incoming
transactions. -/
theorem washTrading_counterexample :
    detectWashTrading
        [⟨"o1", "A", "B", 100, 0⟩, ⟨"o2", "A", "B", 100, 0⟩, ⟨"o3", "A", "B", 100, 0⟩]
        [⟨"i1", "B", "A", 100, 0⟩, ⟨"i2", "B", "A", 100, 0⟩, ⟨"i3", "B", "A", 100, 0⟩]
        = none ∧
    3 ≤ countWashPairs
        [⟨"o1", "A", "B", 100, 0⟩, ⟨"o2", "A", "B", 100, 0⟩, ⟨"o3", "A", "B", 100, 0⟩]
        [⟨"i1", "B", "A", 100, 0⟩, ⟨"i2", "B", "A", 100, 0⟩, ⟨"i3", "B", "A", 100, 0⟩] := by
  constructor
  · simp [detectWashTrading]
  · norm_num [countWashPairs, washMatch, List.filter]

/-! ## Theorems for C7 -/

/-- A run in progress of positive length yields a recorded run at least as
long. -/
theorem le_maxRunLen_burstRunsAux (thr : ℚ) (l : List ℚ) (cur : ℕ) (h : 0 < cur) :
    cur ≤ maxRunLen (burstRunsAux thr l cur) := by
  induction l generalizing cur with
  | nil => simp [burstRunsAux, maxRunLen, h]
  | cons d rest ih =>
    unfold burstRunsAux
    by_cases hd : d < thr
    · rw [if_pos hd]
      exact le_trans (Nat.le_succ cur) (ih (cur + 1) (by omega))
    · rw [if_neg hd, if_pos h]
      simp only [maxRunLen, List.map_cons, List.foldr_cons]
      exact le_max_left _ _

/-- A run length bound holds somewhere iff it holds for the maximum. -/
theorem le_maxRunLen_iff (l : List (ℕ × Bool)) (n : ℕ) (h : 0 < n) :
    n ≤ maxRunLen l ↔ ∃ p ∈ l, n ≤ p.1 := by
  induction l with
  | nil => simp [maxRunLen]; omega
  | cons x xs ih =>
    simp only [maxRunLen, List.map_cons, List.foldr_cons]
    rw [show ((xs.map Prod.fst).foldr max 0) = maxRunLen xs from rfl, le_max_iff]
    constructor
    · rintro (h1 | h2)
      · exact ⟨x, by simp, h1⟩
      · obtain ⟨p, hp, hn⟩ := ih.mp h2
        exact ⟨p, by simp [hp], hn⟩
    · rintro ⟨p, hp, hn⟩
      rcases List.mem_cons.mp hp with rfl | hp
      · exact Or.inl hn
      · exact Or.inr (ih.mpr ⟨p, hp, hn⟩)

/-- The gap-scanning loop computes exactly the number of closed runs of
length at least 3 and the maximal run length, given that the running
maximum already dominates the run in progress. -/
theorem burstLoop_eq_runs (thr : ℚ) (l : List ℚ) (cur bc mb : ℕ) (h : cur ≤ mb) :
    burstLoop thr l cur bc mb =
      (bc + (burstRunsAux thr l cur).countP (fun p => p.2 && decide (3 ≤ p.1)),
        max mb (maxRunLen (burstRunsAux thr l cur))) := by
  induction l generalizing cur bc mb with
  | nil =>
    by_cases hc : 0 < cur
    · simp only [burstLoop, burstRunsAux, if_pos hc, List.countP_cons, List.countP_nil,
        maxRunLen, List.map_cons, List.map_nil, List.foldr_cons, List.foldr_nil]
      simp [max_eq_left h]
    · simp [burstLoop, burstRunsAux, hc, maxRunLen]
  | cons d rest ih =>
    by_cases hd : d < thr
    · simp only [burstLoop, burstRunsAux, if_pos hd]
      rw [ih (cur + 1) bc (max mb (cur + 1)) (le_max_right _ _)]
      have hM : cur + 1 ≤ maxRunLen (burstRunsAux thr rest (cur + 1)) :=
        le_maxRunLen_burstRunsAux thr rest (cur + 1) (by omega)
      rw [max_assoc, max_eq_right hM]
    · simp only [burstLoop, burstRunsAux, if_neg hd]
      rw [ih 0 _ mb (Nat.zero_le _)]
      by_cases hc : 0 < cur
      · rw [if_pos hc]
        simp only [List.countP_cons, maxRunLen, List.map_cons, List.foldr_cons,
          Prod.mk.injEq]
        constructor
        · by_cases h3 : 3 ≤ cur <;> simp [h3] <;> omega
        · rw [show ((burstRunsAux thr rest 0).map Prod.fst).foldr max 0
              = maxRunLen (burstRunsAux thr rest 0) from rfl]
          rw [← max_assoc, max_eq_left h]
      · rw [if_neg hc]
        have hz : cur = 0 := by omega
        subst hz
        simp

/-- **C7 (amended).** For an account with at least 10 combined
transactions, the burst-activity detector fires exactly when some maximal
run of consecutive below-threshold gaps is closed by a later gap and has
length at least 3, or some run (closed or reaching the end of the
timeline) has length at least 5.  A run of length 3 or 4 that extends to
the end of the timeline does not by itself fire the signal. -/
theorem burstActivity_fires_iff (incoming outgoing : List Transaction)
    (h : 10 ≤ incoming.length + outgoing.length) :
    (detectBurstActivity incoming outgoing).isSome = true ↔
      ((∃ p ∈ burstRuns incoming outgoing, p.2 = true ∧ 3 ≤ p.1) ∨
        (∃ p ∈ burstRuns incoming outgoing, 5 ≤ p.1)) := by
  have hsort : (sortByTime (incoming ++ outgoing)).length
      = incoming.length + outgoing.length := by
    unfold sortByTime
    simpa using (List.perm_insertionSort
      (fun a b => a.timestamp ≤ b.timestamp) (incoming ++ outgoing)).length_eq
  unfold detectBurstActivity
  rw [if_neg (by omega)]
  simp only [burstLoop_eq_runs _ _ 0 0 0 le_rfl, Nat.zero_add]
  rw [show max 0 (maxRunLen (burstRunsAux (burstThr incoming outgoing)
        (timeDiffsOf (sortByTime (incoming ++ outgoing))) 0))
      = maxRunLen (burstRuns incoming outgoing) from
    max_eq_right (Nat.zero_le _)]
  rw [show burstRunsAux (burstThr incoming outgoing)
        (timeDiffsOf (sortByTime (incoming ++ outgoing))) 0
      = burstRuns incoming outgoing from rfl]
  split_ifs with hfire
  · simp only [Option.isSome_some, true_iff]
    rcases hfire with hf | hf
    · left
      obtain ⟨p, hmem, hp⟩ := List.countP_pos_iff.mp hf
      obtain ⟨hp2, hp1⟩ : p.2 = true ∧ 3 ≤ p.1 := by simpa using hp
      exact ⟨p, hmem, hp2, hp1⟩
    · exact Or.inr ((le_maxRunLen_iff _ 5 (by omega)).mp hf)
  · simp only [Option.isSome_none, Bool.false_eq_true, false_iff]
    push_neg at hfire
    rintro (⟨p, hmem, hp2, hp1⟩ | ⟨p, hmem, hp1⟩)
    · have : 0 < (burstRuns incoming outgoing).countP
          (fun p => p.2 && decide (3 ≤ p.1)) :=
        List.countP_pos_iff.mpr ⟨p, hmem, by simp [hp2, hp1]⟩
      omega
    · have : 5 ≤ maxRunLen (burstRuns incoming outgoing) :=
        (le_maxRunLen_iff _ 5 (by omega)).mpr ⟨p, hmem, hp1⟩
      omega

/-- Witness for C7 at a concrete input: ten transactions whose three 1 ms
gaps form an interior run closed by a long gap; the detector fires. -/
theorem burstActivity_fires_iff_witness :
    10 ≤ ([] : List Transaction).length + burstWitnessTxs.length ∧
    (detectBurstActivity [] burstWitnessTxs).isSome = true := by
  constructor
  · decide
  · refine (burstActivity_fires_iff [] burstWitnessTxs (by decide)).mpr
      (Or.inl ⟨(3, true), ?_, rfl, by norm_num⟩)
    have hruns : burstRuns [] burstWitnessTxs = [(3, true)] := by
      norm_num [burstRuns, burstRunsAux, burstThr, burstWitnessTxs, sortByTime,
        List.insertionSort, List.orderedInsert, timeDiffsOf]
    rw [hruns]
    simp

/-- Counterexample to C7 as stated: the account `burstCounterTxs` has ten
transactions and a maximal run of three consecutive below-threshold gaps —
but the run extends to the end of the timeline, so the detector does not
fire, against the claim's "including a qualifying run that extends to the
end of the account's timeline". -/
theorem burstActivity_counterexample :
    10 ≤ ([] : List Transaction).length + burstCounterTxs.length ∧
    (∃ p ∈ burstRuns [] burstCounterTxs, 3 ≤ p.1) ∧
    (detectBurstActivity [] burstCounterTxs).isSome = false := by
  have hruns : burstRuns [] burstCounterTxs = [(3, false)] := by
    norm_num [burstRuns, burstRunsAux, burstThr, burstCounterTxs, sortByTime,
      List.insertionSort, List.orderedInsert, timeDiffsOf]
  refine ⟨by decide, ⟨(3, false), by rw [hruns]; simp, by norm_num⟩, ?_⟩
  norm_num [detectBurstActivity, burstLoop, burstThr, burstCounterTxs, sortByTime,
    List.insertionSort, List.orderedInsert, timeDiffsOf]

/-! ## Theorems for C6 -/

/-- **C6 (amended).** The numerical edge cases produce: temporal clustering
0 (not 1) for a community with exactly one internal event; amount
consistency 0 (not 1) when the mean internal amount is zero; and, when all
of an account's at-least-20 events share one timestamp, a
frequency-anomaly payload whose transactions-per-day value is the
non-finite `+Infinity` (the detector fires on it). -/
theorem numericalEdgeCases :
    (∀ t : ℚ, calculateTemporalClusteringCoefficient [t] = 0) ∧
    (∀ amounts : List ℚ,
      (if amounts.length > 0 then amounts.sum / amounts.length else 0) = 0 →
        communityAmountConsistency amounts = 0) ∧
    (∀ (incoming outgoing : List Transaction) (τ : ℚ),
      20 ≤ incoming.length + outgoing.length →
      (∀ x ∈ incoming ++ outgoing, x.timestamp = τ) →
      detectFrequencyAnomalies incoming outgoing =
        some (JSNum.posInf, incoming.length + outgoing.length)) := by
  refine ⟨?_, ?_, ?_⟩
  · intro t
    simp [calculateTemporalClusteringCoefficient]
  · intro amounts h
    simp only [communityAmountConsistency, h]
    norm_num
  · intro incoming outgoing τ h20 hτ
    have hsortlen : (sortByTime (incoming ++ outgoing)).length
        = incoming.length + outgoing.length := by
      unfold sortByTime
      simpa using (List.perm_insertionSort
        (fun a b => a.timestamp ≤ b.timestamp) (incoming ++ outgoing)).length_eq
    have hperm := List.perm_insertionSort
      (fun a b => a.timestamp ≤ b.timestamp) (incoming ++ outgoing)
    have hmem : ∀ x ∈ sortByTime (incoming ++ outgoing), x.timestamp = τ :=
      fun x hx => hτ x (hperm.subset hx)
    have hne : sortByTime (incoming ++ outgoing) ≠ [] := by
      apply List.ne_nil_of_length_pos
      omega
    have hlastv : (((sortByTime (incoming ++ outgoing)).getLast?.map
        (·.timestamp)).getD 0) = τ := by
      rw [List.getLast?_eq_getLast _ hne]
      simp [hmem _ (List.getLast_mem hne)]
    have hheadv : (((sortByTime (incoming ++ outgoing)).head?.map
        (·.timestamp)).getD 0) = τ := by
      rw [List.head?_eq_head hne]
      simp [hmem _ (List.head_mem hne)]
    simp only [detectFrequencyAnomalies, hlastv, hheadv, hsortlen]
    rw [if_neg (by omega)]
    norm_num [JSNum.gtQ]

/-- Witness for C6 at concrete inputs: one event at time 0; the empty
internal-amount list (mean 0); twenty simultaneous transactions. -/
theorem numericalEdgeCases_witness :
    calculateTemporalClusteringCoefficient [(0 : ℚ)] = 0 ∧
    communityAmountConsistency [] = 0 ∧
    detectFrequencyAnomalies [] freq20Txs = some (JSNum.posInf, 20) := by
  refine ⟨numericalEdgeCases.1 0, numericalEdgeCases.2.1 [] (by norm_num), ?_⟩
  have h := numericalEdgeCases.2.2 [] freq20Txs 0 (by decide)
    (by simp [freq20Txs, List.mem_replicate])
  simpa [freq20Txs] using h

/-- Counterexample to C6 as stated: the single-event temporal clustering is
0, not 1; the zero-mean amount consistency is 0, not 1; and the
frequency-anomaly payload for twenty simultaneous transactions contains a
non-finite transactions-per-day value. -/
theorem numericalEdgeCases_counterexample :
    calculateTemporalClusteringCoefficient [(0 : ℚ)] ≠ 1 ∧
    communityAmountConsistency [] ≠ 1 ∧
    (detectFrequencyAnomalies [] freq20Txs).map (fun p => p.1.isFinite)
      = some false := by
  refine ⟨?_, ?_, ?_⟩
  · simp [calculateTemporalClusteringCoefficient]
  · norm_num [communityAmountConsistency]
  · have hev : detectFrequencyAnomalies [] freq20Txs
        = some (JSNum.posInf, 20) := by
      norm_num [detectFrequencyAnomalies, freq20Txs, sortByTime,
        List.insertionSort, List.orderedInsert, JSNum.gtQ, List.replicate]
    rw [hev]
    rfl

/-! ## Theorems for C2 -/

/-- Inserting an element into a list never reorders the elements of any
fixed score class: an element only passes over strictly higher scores. -/
theorem filter_score_orderedInsert (s : ℚ) (x : SuspiciousAccount)
    (l : List SuspiciousAccount) :
    (List.orderedInsert scoreDesc x l).filter
        (fun a => a.suspicion_score == s) =
      if x.suspicion_score = s
        then x :: l.filter (fun a => a.suspicion_score == s)
        else l.filter (fun a => a.suspicion_score == s) := by
  induction l with
  | nil =>
    by_cases hx : x.suspicion_score = s <;>
      simp [List.orderedInsert, List.filter_cons, hx]
  | cons y ys ih =>
    unfold List.orderedInsert
    by_cases hr : scoreDesc x y
    · rw [if_pos hr]
      by_cases hx : x.suspicion_score = s <;>
        simp [List.filter_cons, hx]
    · rw [if_neg hr]
      simp only [List.filter_cons]
      rw [ih]
      by_cases hx : x.suspicion_score = s
      · have hy : ¬ y.suspicion_score = s := by
          intro hy
          exact hr (le_of_eq (hy.trans hx.symm))
        simp [hx, hy]
      · simp [hx]

/-- The stable sort leaves every score class in input order. -/
theorem filter_score_formatSortAccounts (s : ℚ) (l : List SuspiciousAccount) :
    (formatSortAccounts l).filter (fun a => a.suspicion_score == s) =
      l.filter (fun a => a.suspicion_score == s) := by
  induction l with
  | nil => rfl
  | cons x xs ih =>
    unfold formatSortAccounts List.insertionSort
    rw [filter_score_orderedInsert]
    unfold formatSortAccounts at ih
    by_cases hx : x.suspicion_score = s <;>
      simp [List.filter_cons, hx, ih]

/-- **C2 (amended).** The formatter emits suspicious accounts sorted by
`suspicion_score` descending, as a permutation of its input in which every
class of equal-score accounts keeps its input order (the sort is stable and
applies no account-id tiebreak). -/
theorem formatSortAccounts_sorted (l : List SuspiciousAccount) :
    List.Sorted scoreDesc (formatSortAccounts l) ∧
    List.Perm (formatSortAccounts l) l ∧
    (∀ s : ℚ, (formatSortAccounts l).filter (fun a => a.suspicion_score == s) =
      l.filter (fun a => a.suspicion_score == s)) :=
  ⟨List.sorted_insertionSort scoreDesc l, List.perm_insertionSort scoreDesc l,
    fun s => filter_score_formatSortAccounts s l⟩

/-- Counterexample to C2 as stated: two equal-score accounts arriving as
["B", "A"] are emitted as ["B", "A"] — equal scores in descending input
order, not ascending account-id order. -/
theorem formatSortAccounts_counterexample :
    formatSortAccounts [⟨"B", 50, [], none⟩, ⟨"A", 50, [], none⟩] =
      [⟨"B", 50, [], none⟩, ⟨"A", 50, [], none⟩] ∧
    ("A" : String) < "B" := by
  constructor
  · norm_num [formatSortAccounts, List.insertionSort, List.orderedInsert, scoreDesc]
  · simp [String.lt_iff_toList_lt]
    decide

/-! ## Theorems for C5 -/

/-- Recording a back edge adds at most one cycle and removes none. -/
theorem recordCycle_length_le (path : List String) (neighbor : String)
    (cycles : List CycleRec) :
    (recordCycle path neighbor cycles).length ≤ cycles.length + 1 ∧
      cycles.length ≤ (recordCycle path neighbor cycles).length := by
  simp only [recordCycle]
  split_ifs <;> simp

mutual

/-- The DFS never exceeds the cycle cap. -/
theorem dfsVisit_cycles_le (txs : List Transaction) (maxCycles : ℕ)
    (path : List String) (node : String) (depth : ℕ) (st : DfsState)
    (h : st.cycles.length ≤ maxCycles) :
    (dfsVisit txs maxCycles path node depth st).cycles.length ≤ maxCycles := by
  unfold dfsVisit
  split_ifs with hg
  · exact h
  · exact dfsEdges_cycles_le txs maxCycles (path ++ [node])
      (outgoingTransactions txs node) node depth _ h
termination_by (5 - depth, 1, 0)

/-- The edge loop never exceeds the cycle cap. -/
theorem dfsEdges_cycles_le (txs : List Transaction) (maxCycles : ℕ)
    (path : List String) (edges : List Transaction) (node : String)
    (depth : ℕ) (st : DfsState) (h : st.cycles.length ≤ maxCycles) :
    (dfsEdges txs maxCycles path edges node depth st).cycles.length ≤ maxCycles := by
  cases edges with
  | nil =>
    unfold dfsEdges
    exact h
  | cons tx rest =>
    unfold dfsEdges
    split_ifs with h1 h2 h3
    · exact h
    · refine dfsEdges_cycles_le txs maxCycles path rest node depth _ ?_
      show (recordCycle path tx.receiver_id st.cycles).length ≤ maxCycles
      have hrec := recordCycle_length_le path tx.receiver_id st.cycles
      simp only [not_le] at h1
      omega
    · exact dfsEdges_cycles_le txs maxCycles path rest node depth _
        (dfsVisit_cycles_le txs maxCycles path tx.receiver_id (depth + 1) st h)
    · exact dfsEdges_cycles_le txs maxCycles path rest node depth _ h
termination_by (5 - depth, 0, edges.length)

end

/-- The start-account loop never exceeds the cycle cap. -/
theorem foldl_detectCyclesStep_le (txs : List Transaction) (maxCycles : ℕ)
    (l : List String) (acc : List CycleRec × List String)
    (h : acc.1.length ≤ maxCycles) :
    ((l.foldl (detectCyclesStep txs maxCycles) acc).1).length ≤ maxCycles := by
  induction l generalizing acc with
  | nil => exact h
  | cons a as ih =>
    simp only [List.foldl_cons]
    refine ih _ ?_
    unfold detectCyclesStep
    split_ifs with h1 h2
    · exact h
    · exact h
    · exact dfsVisit_cycles_le txs maxCycles [] a 0 ⟨acc.1, []⟩ h

/-- **C5 (amended).** The number of cycles enumerated in an analysis run is
at most 100 for every input: `detectAllPatterns` calls the cycle detector
without passing the configured `max_cycles` option (default 1000), so the
detector's hard-coded default cap of 100 always applies. -/
theorem detectAllPatternsCycles_le_100 (txs : List Transaction) :
    (detectAllPatternsCycles txs).length ≤ 100 :=
  foldl_detectCyclesStep_le txs 100 (allAccounts txs) ([], []) (by simp)

/-- Counterexample to C5 as stated: no input can make the pipeline
enumerate more than 100 cycles, refuting "an input containing more than
100 distinct qualifying cycles may yield more than 100 enumerated
cycles". -/
theorem maxCycles_counterexample :
    ¬ ∃ txs : List Transaction, 100 < (detectAllPatternsCycles txs).length := by
  rintro ⟨txs, h⟩
  have hle : (detectAllPatternsCycles txs).length ≤ 100 :=
    foldl_detectCyclesStep_le txs 100 (allAccounts txs) ([], []) (by simp)
  omega

/-! ## Theorems for C3 -/

/-- A `Set.add`: the element is a member afterwards. -/
theorem mem_insertUnique_self (l : List String) (x : String) :
    x ∈ insertUnique l x := by
  unfold insertUnique
  split_ifs with h
  · exact h
  · simp

/-- A `Set.add` keeps existing members. -/
theorem mem_insertUnique_of_mem (l : List String) (x y : String) (h : y ∈ l) :
    y ∈ insertUnique l x := by
  unfold insertUnique
  split_ifs
  · exact h
  · simp [h]

/-- Dropping a proper prefix does not change the last element. -/
theorem getLast?_drop_of_lt {α : Type} (l : List α) (i : ℕ) (h : i < l.length) :
    (l.drop i).getLast? = l.getLast? := by
  have hne : l.drop i ≠ [] := by
    apply List.ne_nil_of_length_pos
    simp only [List.length_drop]
    omega
  conv_rhs => rw [← List.take_append_drop i l]
  rw [List.getLast?_append_of_ne_nil _ hne]

/-- A recorded back edge yields a well-formed cycle: the suffix of the DFS
path from the first occurrence of the neighbour is simple, its length is
the recorded one, and the found transaction closes it. -/
theorem recordCycle_good (txs : List Transaction) (path : List String)
    (neighbor node : String) (cycles : List CycleRec)
    (hmem : neighbor ∈ path) (hnodup : path.Nodup)
    (hchain : path.Chain' (hasEdge txs))
    (hlast : path.getLast? = some node) (hedge : hasEdge txs node neighbor)
    (hcycles : ∀ c ∈ cycles, GoodCycle txs c) :
    ∀ c ∈ recordCycle path neighbor cycles, GoodCycle txs c := by
  intro c hc
  simp only [recordCycle] at hc
  by_cases h35 : 3 ≤ path.length - List.indexOf neighbor path ∧
      path.length - List.indexOf neighbor path ≤ 5
  · rw [if_pos h35] at hc
    by_cases hdup : isDuplicateCycle cycles
        (cycleKey (path.drop (List.indexOf neighbor path))) = true
    · rw [if_pos hdup] at hc
      exact hcycles c hc
    · rw [if_neg hdup] at hc
      rcases List.mem_append.mp hc with hc | hc
      · exact hcycles c hc
      · have hceq : c = ⟨path.drop (List.indexOf neighbor path),
            path.length - List.indexOf neighbor path⟩ := by simpa using hc
        subst hceq
        have hilt : List.indexOf neighbor path < path.length :=
          List.indexOf_lt_length.mpr hmem
        refine ⟨?_, ?_, ?_, ?_, ?_, ?_⟩
        · exact List.Nodup.sublist (List.drop_sublist _ _) hnodup
        · simp [List.length_drop]
        · simpa [List.length_drop] using h35.1
        · simpa [List.length_drop] using h35.2
        · exact hchain.suffix (List.drop_suffix _ _)
        · intro x y hx hy
          rw [getLast?_drop_of_lt path _ hilt, hlast] at hx
          have hxn : x = node := by simpa using hx.symm
          have hhead : (path.drop (List.indexOf neighbor path)).head?
              = some neighbor := by
            rw [List.head?_drop]
            rw [List.getElem?_eq_getElem hilt]
            simp [List.getElem_indexOf]
          have hyn : y = neighbor := by
            rw [hhead] at hy
            simpa using hy.symm
          rw [hxn, hyn]
          exact hedge
  · rw [if_neg h35] at hc
    exact hcycles c hc

mutual

/-- Along a simple DFS walk, every cycle the DFS records is well formed,
and the visited set only grows. -/
theorem dfsVisit_good (txs : List Transaction) (maxCycles : ℕ)
    (path : List String) (node : String) (depth : ℕ) (st : DfsState)
    (hnodup : (path ++ [node]).Nodup)
    (hchain : (path ++ [node]).Chain' (hasEdge txs))
    (hcyc : ∀ c ∈ st.cycles, GoodCycle txs c)
    (hvis : ∀ a ∈ path, a ∈ st.visited) :
    (∀ c ∈ (dfsVisit txs maxCycles path node depth st).cycles, GoodCycle txs c) ∧
    (∀ a ∈ st.visited, a ∈ (dfsVisit txs maxCycles path node depth st).visited) := by
  unfold dfsVisit
  split_ifs with hg
  · exact ⟨hcyc, fun a ha => ha⟩
  · have hE := dfsEdges_good txs maxCycles (path ++ [node])
      (outgoingTransactions txs node) node depth
      ⟨st.cycles, insertUnique st.visited node⟩
      (by simp)
      (List.getLast?_concat _)
      (by
        intro tx htx
        have := List.mem_filter.mp htx
        exact ⟨this.1, by simpa using this.2⟩)
      hnodup hchain hcyc
      (by
        intro a ha
        rcases List.mem_append.mp ha with ha | ha
        · exact mem_insertUnique_of_mem _ _ _ (hvis a ha)
        · have : a = node := by simpa using ha
          rw [this]
          exact mem_insertUnique_self _ _)
    exact ⟨hE.1, fun a ha => hE.2 a (mem_insertUnique_of_mem _ _ _ ha)⟩
termination_by (5 - depth, 1, 0)

/-- The edge loop preserves cycle well-formedness and only grows the
visited set. -/
theorem dfsEdges_good (txs : List Transaction) (maxCycles : ℕ)
    (path : List String) (edges : List Transaction) (node : String)
    (depth : ℕ) (st : DfsState)
    (hne : path ≠ [])
    (hlast : path.getLast? = some node)
    (hedges : ∀ tx ∈ edges, tx ∈ txs ∧ tx.sender_id = node)
    (hnodup : path.Nodup)
    (hchain : path.Chain' (hasEdge txs))
    (hcyc : ∀ c ∈ st.cycles, GoodCycle txs c)
    (hvis : ∀ a ∈ path, a ∈ st.visited) :
    (∀ c ∈ (dfsEdges txs maxCycles path edges node depth st).cycles,
      GoodCycle txs c) ∧
    (∀ a ∈ st.visited,
      a ∈ (dfsEdges txs maxCycles path edges node depth st).visited) := by
  cases edges with
  | nil =>
    unfold dfsEdges
    exact ⟨hcyc, fun a ha => ha⟩
  | cons tx rest =>
    unfold dfsEdges
    split_ifs with h1 h2 h3
    · exact ⟨hcyc, fun a ha => ha⟩
    · have htx := hedges tx (List.mem_cons_self _ _)
      have hedge : hasEdge txs node tx.receiver_id := ⟨tx, htx.1, htx.2, rfl⟩
      exact dfsEdges_good txs maxCycles path rest node depth
        ⟨recordCycle path tx.receiver_id st.cycles, st.visited⟩
        hne hlast (fun t ht => hedges t (List.mem_cons_of_mem _ ht))
        hnodup hchain
        (recordCycle_good txs path tx.receiver_id node st.cycles h2 hnodup
          hchain hlast hedge hcyc)
        hvis
    · have htx := hedges tx (List.mem_cons_self _ _)
      have hnodup2 : (path ++ [tx.receiver_id]).Nodup := by
        simp only [List.nodup_append, List.nodup_cons, List.not_mem_nil,
          not_false_iff, List.nodup_nil, and_true, true_and]
        exact ⟨hnodup, fun a ha hEq => h2 ((List.mem_singleton.mp hEq) ▸ ha)⟩
      have hchain2 : (path ++ [tx.receiver_id]).Chain' (hasEdge txs) := by
        rw [List.chain'_append]
        refine ⟨hchain, List.chain'_singleton _, ?_⟩
        intro x hx y hy
        have hxn : x = node := by
          rw [hlast] at hx
          simpa using hx.symm
        have hyn : y = tx.receiver_id := by simpa using hy.symm
        rw [hxn, hyn]
        exact ⟨tx, htx.1, htx.2, rfl⟩
      have hv := dfsVisit_good txs maxCycles path tx.receiver_id (depth + 1) st
        hnodup2 hchain2 hcyc hvis
      have hrec := dfsEdges_good txs maxCycles path rest node depth
        (dfsVisit txs maxCycles path tx.receiver_id (depth + 1) st)
        hne hlast (fun t ht => hedges t (List.mem_cons_of_mem _ ht))
        hnodup hchain hv.1 (fun a ha => hv.2 a (hvis a ha))
      exact ⟨hrec.1, fun a ha => hrec.2 a (hv.2 a ha)⟩
    · exact dfsEdges_good txs maxCycles path rest node depth st hne hlast
        (fun t ht => hedges t (List.mem_cons_of_mem _ ht)) hnodup hchain hcyc hvis
termination_by (5 - depth, 0, edges.length)

end

/-- The start-account loop preserves cycle well-formedness. -/
theorem foldl_detectCyclesStep_good (txs : List Transaction) (maxCycles : ℕ)
    (l : List String) (acc : List CycleRec × List String)
    (h : ∀ c ∈ acc.1, GoodCycle txs c) :
    ∀ c ∈ ((l.foldl (detectCyclesStep txs maxCycles) acc).1), GoodCycle txs c := by
  induction l generalizing acc with
  | nil => exact h
  | cons a as ih =>
    simp only [List.foldl_cons]
    refine ih _ ?_
    unfold detectCyclesStep
    split_ifs with h1 h2
    · exact h
    · exact h
    · exact (dfsVisit_good txs maxCycles [] a 0 ⟨acc.1, []⟩ (by simp) (by simp)
        h (by simp)).1

/-- **C3 (amended).** Every cycle reported by the cycle detector is a
simple directed cycle with length in {3, 4, 5}.  The deduplication,
however, does not identify rotations: `minIdx` is always `-1` (see
`jsNormalizeCycle`), so the dedup key is the discovery order rotated by
one, and two rotations of the same cycle discovered from different start
accounts are both kept. -/
theorem detectCyclesEfficient_good (txs : List Transaction) (maxCycles : ℕ) :
    ∀ c ∈ detectCyclesEfficient txs maxCycles, GoodCycle txs c :=
  foldl_detectCyclesStep_good txs maxCycles (allAccounts txs) ([], []) (by simp)

/-- The 3-cycle graph `A → B → C → A`. -/
def cycleTxs3 : List Transaction :=
  [⟨"t1", "A", "B", 100, 0⟩, ⟨"t2", "B", "C", 100, 0⟩, ⟨"t3", "C", "A", 100, 0⟩]

/-- Evaluation of the detector on the 3-cycle graph: all three rotations of
the one simple cycle are reported. -/
theorem cycleTxs3_eval :
    detectAllPatternsCycles cycleTxs3 =
      [⟨["A", "B", "C"], 3⟩, ⟨["B", "C", "A"], 3⟩, ⟨["C", "A", "B"], 3⟩] := by
  have hr1 : recordCycle ["A", "B", "C"] "A" [] = [⟨["A", "B", "C"], 3⟩] := by rfl
  have hr2 : recordCycle ["B", "C", "A"] "B" [⟨["A", "B", "C"], 3⟩] =
      [⟨["A", "B", "C"], 3⟩, ⟨["B", "C", "A"], 3⟩] := by rfl
  have hr3 : recordCycle ["C", "A", "B"] "C"
        [⟨["A", "B", "C"], 3⟩, ⟨["B", "C", "A"], 3⟩] =
      [⟨["A", "B", "C"], 3⟩, ⟨["B", "C", "A"], 3⟩, ⟨["C", "A", "B"], 3⟩] := by rfl
  simp [detectAllPatternsCycles, detectCyclesEfficient, detectCyclesStep,
    allAccounts, cycleTxs3, insertUnique, dfsVisit, dfsEdges,
    outgoingTransactions, hr1, hr2, hr3]

/-- Witness for C3 at a concrete input: the first reported cycle of the
3-cycle graph is a simple directed 3-cycle. -/
theorem detectCyclesEfficient_good_witness :
    GoodCycle cycleTxs3 ⟨["A", "B", "C"], 3⟩ := by
  refine detectCyclesEfficient_good cycleTxs3 100 _ ?_
  rw [show detectCyclesEfficient cycleTxs3 100 = detectAllPatternsCycles cycleTxs3
    from rfl, cycleTxs3_eval]
  simp

/-- Counterexample to C3 as stated: on `A → B → C → A` the detector reports
all three rotations of the one cycle; the first two already share the same
normalized form (rotation starting at the lexicographically smallest id),
so a normalized form appears more than once. -/
theorem detectCycles_counterexample :
    detectAllPatternsCycles cycleTxs3 =
      [⟨["A", "B", "C"], 3⟩, ⟨["B", "C", "A"], 3⟩, ⟨["C", "A", "B"], 3⟩] ∧
    specNormalizeCycle ["A", "B", "C"] = specNormalizeCycle ["B", "C", "A"] := by
  refine ⟨cycleTxs3_eval, ?_⟩
  have h1 : (['A'] : List Char) ≤ ['B'] := by decide
  have h2 : (['A'] : List Char) ≤ ['C'] := by decide
  have h3 : (['B'] : List Char) ≤ ['C'] := by decide
  have h4 : ¬ ((['C'] : List Char) ≤ ['A']) := by decide
  have h5 : ¬ ((['B'] : List Char) ≤ ['A']) := by decide
  simp [specNormalizeCycle, List.indexOf, List.findIdx, List.findIdx.go,
    String.le_iff_toList_le, h1, h2, h3, h4, h5]

end RIFT
